import Mathlib

/-!
Shallow embedding of the AVI datamosh core (src/mosh.py): the chunk data
model, the idx1 index parser, the movi chunk extractor, the frame selection
engine, the container builder and the header patcher, together with proofs
of the specification claims about them.

Bytes are modelled as natural numbers (one Nat per byte), byte strings as
List Nat, Python unbounded integers as Int where a value can be negative
(policy parameters) and as Nat where it cannot (byte offsets, counters).
Fallible code returns Except String, mirroring the AviParseError /
ValueError raises of the source.
-/

namespace Mosh

/-- AVI index flag for keyframes (0x00000010 in the source). -/
def AVIIF_KEYFRAME : Nat := 16

/-- Single chunk inside the LIST movi section (dataclass AviChunk). -/
structure AviChunk where
  chunk_id : List Nat
  flags : Nat
  data : List Nat
  is_video : Bool
  is_keyframe : Bool
  stream_id : Option Nat
  clip_id : Nat
deriving DecidableEq

/-- AviChunk.clone of the source: data are immutable, so the clone is a
field-by-field copy. -/
def AviChunk.clone (c : AviChunk) : AviChunk :=
  ⟨c.chunk_id, c.flags, c.data, c.is_video, c.is_keyframe, c.stream_id, c.clip_id⟩

/-- The duplicate inserted by process_chunks: a clone whose keyframe flag is
forcibly cleared (clone.flags &= ~AVIIF_KEYFRAME; clone.is_keyframe = False).
On a non-negative Python int, masking with ~16 clears exactly bit 4, which on
Nat is subtracting the bit that the conjunction with 16 extracts. -/
def dupClone (c : AviChunk) : AviChunk :=
  { c.clone with flags := c.flags - (c.flags &&& AVIIF_KEYFRAME), is_keyframe := false }

/-- Per-clip policy overrides (dataclass ClipOptions). Keyframe ordinal sets
are lists of Python ints with membership tests. -/
structure ClipOptions where
  keep_initial_keyframes : Int
  duplicate_count : Int
  duplicate_gap : Int
  drop_first_keyframe : Bool := false
  keep_specific_keys : Option (List Int) := none
  drop_specific_keys : Option (List Int) := none
deriving DecidableEq

/-- The arguments of process_chunks that stay fixed over the pass: the global
fallback policy, the optional global keyframe index sets, the per-clip
override mapping (the dict, modelled as a lookup function that yields none
where the dict has no entry or is absent) and the drop_appended_first flag. -/
structure ProcessParams where
  keep_initial_keyframes : Int
  duplicate_count : Int
  duplicate_gap : Int
  keep_key_indices : Option (List Int) := none
  drop_key_indices : Option (List Int) := none
  clip_options : Nat → Option ClipOptions := fun _ => none
  drop_appended_first : Bool := true

/-- Membership of an ordinal in an optional index set: the source's pattern
"s is not None and i in s". -/
def memOpt (s : Option (List Int)) (i : Int) : Bool :=
  match s with
  | some l => l.contains i
  | none => false

/-- Resolved per-clip keep-leading-keyframes quota:
options.keep_initial_keyframes if options else keep_initial_keyframes. -/
def resolveKeepLimit (p : ProcessParams) (cid : Nat) : Int :=
  match p.clip_options cid with
  | some o => o.keep_initial_keyframes
  | none => p.keep_initial_keyframes

/-- Resolved per-clip duplicate count. -/
def resolveDupCount (p : ProcessParams) (cid : Nat) : Int :=
  match p.clip_options cid with
  | some o => o.duplicate_count
  | none => p.duplicate_count

/-- Resolved per-clip duplication cadence. -/
def resolveDupGap (p : ProcessParams) (cid : Nat) : Int :=
  match p.clip_options cid with
  | some o => o.duplicate_gap
  | none => p.duplicate_gap

/-- Resolved per-clip drop-first-keyframe flag:
options.drop_first_keyframe if options else (drop_appended_first and clip_id != 0). -/
def resolveDropFirst (p : ProcessParams) (cid : Nat) : Bool :=
  match p.clip_options cid with
  | some o => o.drop_first_keyframe
  | none => p.drop_appended_first && cid != 0

/-- Resolved per-clip force-keep set (none when no override object exists). -/
def resolveKeepSet (p : ProcessParams) (cid : Nat) : Option (List Int) :=
  match p.clip_options cid with
  | some o => o.keep_specific_keys
  | none => none

/-- Resolved per-clip force-drop set (none when no override object exists). -/
def resolveDropSet (p : ProcessParams) (cid : Nat) : Option (List Int) :=
  match p.clip_options cid with
  | some o => o.drop_specific_keys
  | none => none

/-- The keyframe keep/drop decision of process_chunks: the if/elif chain of
the source, first match wins, defaulting to keep. -/
def decideKeep (clip_drop_first : Bool) (clip_drop_set : Option (List Int))
    (drop_key_indices : Option (List Int)) (clip_keep_set : Option (List Int))
    (keep_key_indices : Option (List Int)) (clip_keep_limit : Int)
    (keys_kept clip_key_index global_key_index : Nat) : Bool :=
  if clip_drop_first && clip_key_index == 0 then false
  else if memOpt clip_drop_set (clip_key_index : Int) then false
  else if memOpt drop_key_indices (global_key_index : Int) then false
  else if memOpt clip_keep_set (clip_key_index : Int) then true
  else if memOpt keep_key_indices (global_key_index : Int) then true
  else if clip_keep_limit ≤ (keys_kept : Int) then false
  else true

/-- The fate of a keyframe as the specification words it: a fixed precedence,
evaluated in order, first match winning: (1) drop-first flag on the clip's 0th
keyframe drops; (2) the clip-local drop-set drops by clip-local ordinal;
(3) the global drop-set drops by global ordinal; (4) the clip-local keep-set
keeps by clip-local ordinal; (5) the global keep-set keeps by global ordinal;
(6) a clip that has already kept its quota drops; (7) otherwise keep. -/
def keyframeFateSpec (dropFirstFlag : Bool) (localDropSet : Option (List Int))
    (globalDropSet : Option (List Int)) (localKeepSet : Option (List Int))
    (globalKeepSet : Option (List Int)) (quota : Int)
    (keptSoFar localOrdinal globalOrdinal : Nat) : Bool :=
  if dropFirstFlag && localOrdinal == 0 then false
  else if memOpt localDropSet (localOrdinal : Int) then false
  else if memOpt globalDropSet (globalOrdinal : Int) then false
  else if memOpt localKeepSet (localOrdinal : Int) then true
  else if memOpt globalKeepSet (globalOrdinal : Int) then true
  else if quota ≤ (keptSoFar : Int) then false
  else true

/-- The mutable loop state of process_chunks: the global keyframe ordinal and
the three per-clip defaultdict(int) counters, modelled as total functions that
are zero wherever the dict holds no entry. -/
structure ProcState where
  global_key_index : Nat
  per_clip_key_index : Nat → Nat
  per_clip_keys_kept : Nat → Nat
  per_clip_p_counter : Nat → Nat

/-- Fresh state at loop entry: every counter is zero. -/
def initState : ProcState := ⟨0, fun _ => 0, fun _ => 0, fun _ => 0⟩

/-- Pointwise update of a defaultdict-style counter map. -/
def fupd (f : Nat → Nat) (k v : Nat) : Nat → Nat := fun i => if i = k then v else f i

/-- One iteration of the process_chunks loop body on one chunk: the chunks it
appends to processed and the updated counters, or the per-clip configuration
error. -/
def process_step (p : ProcessParams) (st : ProcState) (chunk : AviChunk) :
    Except String (List AviChunk × ProcState) :=
  if chunk.is_video = false then
    .ok ([chunk.clone], st)
  else
    let cid := chunk.clip_id
    if resolveDupCount p cid < 0 then .error "duplicate_count must be >= 0"
    else if resolveDupGap p cid ≤ 0 then .error "duplicate_gap must be >= 1"
    else if chunk.is_keyframe then
      let clip_key_index := st.per_clip_key_index cid
      let keep := decideKeep (resolveDropFirst p cid) (resolveDropSet p cid)
        p.drop_key_indices (resolveKeepSet p cid) p.keep_key_indices
        (resolveKeepLimit p cid) (st.per_clip_keys_kept cid) clip_key_index
        st.global_key_index
      .ok (if keep then [chunk.clone] else [],
        { st with
          per_clip_keys_kept :=
            if keep then fupd st.per_clip_keys_kept cid (st.per_clip_keys_kept cid + 1)
            else st.per_clip_keys_kept,
          per_clip_key_index := fupd st.per_clip_key_index cid (clip_key_index + 1),
          global_key_index := st.global_key_index + 1 })
    else
      let pc := st.per_clip_p_counter cid + 1
      let st' := { st with per_clip_p_counter := fupd st.per_clip_p_counter cid pc }
      if 0 < resolveDupCount p cid ∧ (pc : Int) % resolveDupGap p cid = 0 then
        .ok (chunk.clone :: List.replicate (resolveDupCount p cid).toNat (dupClone chunk), st')
      else
        .ok ([chunk.clone], st')

/-- The loop of process_chunks: left-to-right over the chunk sequence,
threading the counters, concatenating what each iteration appends. -/
def process_go (p : ProcessParams) (st : ProcState) :
    List AviChunk → Except String (List AviChunk)
  | [] => .ok []
  | chunk :: rest =>
    match process_step p st chunk with
    | .error e => .error e
    | .ok (out, st') =>
      match process_go p st' rest with
      | .error e => .error e
      | .ok tail => .ok (out ++ tail)

/-- Frame selection engine (process_chunks of the source): validates the
global fallback policy up front, then runs the selection loop from a fresh
state. -/
def process_chunks (chunks : List AviChunk) (p : ProcessParams) :
    Except String (List AviChunk) :=
  if p.duplicate_count < 0 then .error "duplicate_count must be >= 0"
  else if p.duplicate_gap ≤ 0 then .error "duplicate_gap must be >= 1"
  else process_go p initState chunks

/-- The keep decision the engine reaches for a keyframe chunk in state st. -/
def kfKeep (p : ProcessParams) (st : ProcState) (c : AviChunk) : Bool :=
  decideKeep (resolveDropFirst p c.clip_id) (resolveDropSet p c.clip_id)
    p.drop_key_indices (resolveKeepSet p c.clip_id) p.keep_key_indices
    (resolveKeepLimit p c.clip_id) (st.per_clip_keys_kept c.clip_id)
    (st.per_clip_key_index c.clip_id) st.global_key_index

/-- What a keyframe step appends to the output. -/
def kfOut (p : ProcessParams) (st : ProcState) (c : AviChunk) : List AviChunk :=
  if kfKeep p st c then [c.clone] else []

/-- The state after a keyframe step: the clip ordinal and the global ordinal
advance unconditionally, the kept count only for a kept keyframe. -/
def kfState (p : ProcessParams) (st : ProcState) (c : AviChunk) : ProcState :=
  { st with
    per_clip_keys_kept :=
      if kfKeep p st c then
        fupd st.per_clip_keys_kept c.clip_id (st.per_clip_keys_kept c.clip_id + 1)
      else st.per_clip_keys_kept,
    per_clip_key_index :=
      fupd st.per_clip_key_index c.clip_id (st.per_clip_key_index c.clip_id + 1),
    global_key_index := st.global_key_index + 1 }

/-- The state after a predicted-frame step: only the clip's predicted-frame
counter advances. -/
def pcState (st : ProcState) (c : AviChunk) : ProcState :=
  { st with
    per_clip_p_counter :=
      fupd st.per_clip_p_counter c.clip_id (st.per_clip_p_counter c.clip_id + 1) }

/-- One idx1 record: tag, flags, offset, size, in file order. -/
structure IdxEntry where
  chunk_id : List Nat
  flags : Nat
  offset : Nat
  size : Nat
deriving DecidableEq

/-- Little-endian 4-byte rendering of a value (struct.pack of the source). -/
def le32 (n : Nat) : List Nat :=
  [n % 256, n / 256 % 256, n / 65536 % 256, n / 16777216 % 256]

/-- The bytes one chunk contributes to the rebuilt movi payload: tag, 4-byte
little-endian size, data, and one zero pad byte when the size is odd. -/
def moviEntryBytes (c : AviChunk) : List Nat :=
  c.chunk_id ++ le32 c.data.length ++ c.data ++
    (if c.data.length % 2 = 1 then [0] else [])

/-- The loop of build_movi_and_index: serializes the movi payload, collects
one idx1 record per chunk carrying the running offset, and counts video
chunks. The offset starts at 4 (the movi fourcc preceding the payload) and
advances by 8 + size + parity-pad per chunk. -/
def build_go : List AviChunk → Nat → List Nat × List IdxEntry × Nat
  | [], _ => ([], [], 0)
  | c :: rest, offset =>
    let size := c.data.length
    let tail := build_go rest (offset + 8 + size + size % 2)
    (moviEntryBytes c ++ tail.1,
     ⟨c.chunk_id, c.flags, offset, size⟩ :: tail.2.1,
     (if c.is_video then 1 else 0) + tail.2.2)

/-- The idx1 records the builder produces for a chunk sequence. -/
def buildIdxEntries (chunks : List AviChunk) : List IdxEntry :=
  (build_go chunks 4).2.1

/-- The corrected video-frame count the builder returns. -/
def buildVideoFrames (chunks : List AviChunk) : Nat :=
  (build_go chunks 4).2.2

/-- Byte rendering of one idx1 record, exactly as the builder emits it. -/
def idxEntryBytes (e : IdxEntry) : List Nat :=
  e.chunk_id ++ le32 e.flags ++ le32 e.offset ++ le32 e.size

/-- ASCII bytes of the tag LIST. -/
def LIST_TAG : List Nat := [76, 73, 83, 84]

/-- ASCII bytes of the tag movi. -/
def MOVI_TAG : List Nat := [109, 111, 118, 105]

/-- ASCII bytes of the tag idx1. -/
def IDX1_TAG : List Nat := [105, 100, 120, 49]

/-- Container builder (build_movi_and_index of the source): the finished
LIST movi chunk, the finished idx1 chunk, and the video-frame count. -/
def build_movi_and_index (chunks : List AviChunk) : List Nat × List Nat × Nat :=
  let r := build_go chunks 4
  let idx_payload := (r.2.1.map idxEntryBytes).flatten
  (LIST_TAG ++ le32 (4 + r.1.length) ++ MOVI_TAG ++ r.1,
   IDX1_TAG ++ le32 idx_payload.length ++ idx_payload,
   r.2.2)

/-- Byte at an index, zero past the end. Every use in the embedded code is
guarded so the index is in range, where this agrees with the source reads. -/
def bget (data : List Nat) (i : Nat) : Nat := data.getD i 0

/-- Little-endian 4-byte read (read_le_uint of the source). -/
def read_le_uint (data : List Nat) (offset : Nat) : Nat :=
  bget data offset + 256 * bget data (offset + 1) + 65536 * bget data (offset + 2) +
    16777216 * bget data (offset + 3)

/-- Python slice data[start:stop] with clamping at the end. -/
def subBytes (data : List Nat) (start stop : Nat) : List Nat :=
  (data.take stop).drop start

/-- Stream id from the first two tag bytes (_parse_stream_id of the source):
ASCII-decode the two bytes (failing on any byte at or above 128), require
decimal digits, and read the two-digit number. -/
def parse_stream_id (chunk_id : List Nat) : Option Nat :=
  match chunk_id with
  | b0 :: b1 :: _ =>
    if b0 < 128 ∧ b1 < 128 then
      if 48 ≤ b0 ∧ b0 ≤ 57 ∧ 48 ≤ b1 ∧ b1 ≤ 57 then some ((b0 - 48) * 10 + (b1 - 48))
      else none
    else none
  | [b0] =>
    if b0 < 128 then
      if 48 ≤ b0 ∧ b0 ≤ 57 then some (b0 - 48) else none
    else none
  | [] => none

/-- The chunk record parse_movi_chunks builds at payload position pos from
the movi bytes and the matching idx1 record. -/
def chunkAt (movi_payload : List Nat) (clip_id pos : Nat) (e : IdxEntry) : AviChunk :=
  let chunk_id := subBytes movi_payload pos (pos + 4)
  let chunk_size := read_le_uint movi_payload (pos + 4)
  let stream_id := parse_stream_id chunk_id
  let is_video := (chunk_id.drop 2 == [100, 99] || chunk_id.drop 2 == [100, 98]) &&
    stream_id.isSome
  ⟨chunk_id, e.flags, subBytes movi_payload (pos + 8) (pos + 8 + chunk_size), is_video,
    (e.flags &&& AVIIF_KEYFRAME != 0) && is_video, stream_id, clip_id⟩

/-- The loop of parse_movi_chunks: walks the payload from pos while a chunk
header fits, consuming one idx1 record per payload chunk (the source tracks
an entry index into the full list; here the not-yet-consumed tail stands for
it, so an exhausted tail is the source's index reaching the list length). -/
def parse_movi_go (movi_payload : List Nat) (clip_id : Nat) :
    Nat → List IdxEntry → Except String (List AviChunk)
  | pos, remaining =>
    if pos + 8 ≤ movi_payload.length then
      if subBytes movi_payload pos (pos + 4) = LIST_TAG then
        .error "Nested LIST chunk inside movi is not supported by this tool."
      else if movi_payload.length < pos + 8 + read_le_uint movi_payload (pos + 4) then
        .error "Chunk exceeds movi payload size"
      else
        match remaining with
        | [] => .error "idx1 has fewer entries than movi chunks"
        | e :: rest_entries =>
          if e.chunk_id ≠ subBytes movi_payload pos (pos + 4) then
            .error "movi chunk order does not match idx1"
          else if e.size ≠ read_le_uint movi_payload (pos + 4) then
            .error "Chunk size mismatch between movi and idx1"
          else if e.offset ≠ pos + 4 then
            .error "Chunk offset mismatch between movi and idx1"
          else
            match parse_movi_go movi_payload clip_id
                (pos + 8 + read_le_uint movi_payload (pos + 4) +
                  read_le_uint movi_payload (pos + 4) % 2) rest_entries with
            | .error err => .error err
            | .ok rest => .ok (chunkAt movi_payload clip_id pos e :: rest)
    else
      if remaining ≠ [] then .error "idx1 contains extra entries after parsing movi"
      else .ok []

/-- Chunk extractor (parse_movi_chunks of the source): cross-validates the
movi payload against the idx1 records and produces the typed chunk records. -/
def parse_movi_chunks (movi_payload : List Nat) (idx_entries : List IdxEntry)
    (clip_id : Nat) : Except String (List AviChunk) :=
  parse_movi_go movi_payload clip_id 0 idx_entries

/-- The idx1 record read at byte position pos. -/
def idx1EntryAt (data : List Nat) (pos : Nat) : IdxEntry :=
  ⟨subBytes data pos (pos + 4), read_le_uint data (pos + 4), read_le_uint data (pos + 8),
    read_le_uint data (pos + 12)⟩

/-- The loop of parse_idx1: reads 16-byte records while one fits before
endPos, then rejects a final position short of endPos as trailing bytes. -/
def parse_idx1_go (data : List Nat) (endPos pos : Nat) : Except String (List IdxEntry) :=
  if _h : pos + 16 ≤ endPos then
    (parse_idx1_go data endPos (pos + 16)).map (fun rest => idx1EntryAt data pos :: rest)
  else
    if pos ≠ endPos then .error "idx1 chunk has trailing bytes"
    else .ok []
termination_by endPos - pos
decreasing_by omega

/-- Index parser (parse_idx1 of the source): walks the idx1 chunk body, which
starts 8 bytes into the chunk and spans idx1_size bytes. -/
def parse_idx1 (data : List Nat) (idx1_pos idx1_size : Nat) :
    Except String (List IdxEntry) :=
  parse_idx1_go data (idx1_pos + 8 + idx1_size) (idx1_pos + 8)

/-- Byte offsets of the frame-count header fields (dataclass AviHeaderOffsets). -/
structure AviHeaderOffsets where
  total_frames : Option Nat
  video_stream_length : Option Nat
  odml_total_frames : List Nat

/-- In-place 4-byte little-endian write into a byte buffer (pack_le_uint of
the source); the source requires offset + 4 within the buffer and a value
below 2 to the 32, which the theorems hypothesise. -/
def pack_le_uint (buffer : List Nat) (offset value : Nat) : List Nat :=
  buffer.take offset ++ le32 value ++ buffer.drop (offset + 4)

/-- Header patcher (update_header_counts of the source): writes the corrected
total-frame count at the main header offset, the video stream length offset,
and every extended-index offset, in that order, skipping absent fields. -/
def update_header_counts (pfx : List Nat) (offsets : AviHeaderOffsets)
    (total_frames : Nat) : List Nat :=
  let p1 := match offsets.total_frames with
    | some off => pack_le_uint pfx off total_frames
    | none => pfx
  let p2 := match offsets.video_stream_length with
    | some off => pack_le_uint p1 off total_frames
    | none => p1
  offsets.odml_total_frames.foldl (fun buf off => pack_le_uint buf off total_frames) p2

/-- Every header offset present, in the order the patcher writes them. -/
def headerOffsetList (offsets : AviHeaderOffsets) : List Nat :=
  offsets.total_frames.toList ++ offsets.video_stream_length.toList ++
    offsets.odml_total_frames

/-- Sum of 8 + size + parity-pad, the span one chunk occupies in the rebuilt
movi payload; prefix sums of it give the recorded index offsets. -/
def chunkSpan (c : AviChunk) : Nat := 8 + c.data.length + c.data.length % 2

/-- Number of predicted frames in a chunk sequence: video chunks without the
keyframe mark. -/
def predictedFrames (chunks : List AviChunk) : Nat :=
  (chunks.filter (fun c => c.is_video && !c.is_keyframe)).length

/-- Number of keyframes in a chunk sequence. -/
def keyframeCount (chunks : List AviChunk) : Nat :=
  (chunks.filter (fun c => c.is_keyframe)).length

/-- A concrete one-byte video chunk of stream 00, clip 0, used for concrete
scenarios: tag 00dc, keyframe flag 16 when kf, payload the single byte b. -/
def sampleVideoChunk (kf : Bool) (b : Nat) : AviChunk :=
  ⟨[48, 48, 100, 99], if kf then 16 else 0, [b], true, kf, some 0, 0⟩

/-- The engine output for the scenario chunks under keep-leading-keyframes 1
with no duplication: K1 dropped, nothing else changed. -/
def scenarioQuotaOutput : List AviChunk :=
  [sampleVideoChunk true 0, sampleVideoChunk false 1, sampleVideoChunk false 2,
   sampleVideoChunk false 3, sampleVideoChunk false 5]

/-- The chunk sequence of the specification's concrete scenario:
K0, P0, P1, P2, K1, P3 in one clip. -/
def scenarioChunks : List AviChunk :=
  [sampleVideoChunk true 0, sampleVideoChunk false 1, sampleVideoChunk false 2,
   sampleVideoChunk false 3, sampleVideoChunk true 4, sampleVideoChunk false 5]

/-- The policy of the concrete scenario: keep-leading-keyframes 1, duplicate
count 1, cadence 2, no explicit sets, no per-clip overrides. -/
def scenarioParams : ProcessParams := ⟨1, 1, 2, none, none, fun _ => none, true⟩

/-- The output sequence the specification claims for the scenario:
K0, P0, P1, P1 duplicate, P2, P3. -/
def scenarioClaimedOutput : List AviChunk :=
  [sampleVideoChunk true 0, sampleVideoChunk false 1, sampleVideoChunk false 2,
   dupClone (sampleVideoChunk false 2), sampleVideoChunk false 3, sampleVideoChunk false 5]

/-- The output sequence the engine actually produces for the scenario:
K0, P0, P1, P1 duplicate, P2, P3, P3 duplicate (P3 is the clip's 4th
predicted frame, also a multiple of the cadence 2). -/
def scenarioActualOutput : List AviChunk :=
  [sampleVideoChunk true 0, sampleVideoChunk false 1, sampleVideoChunk false 2,
   dupClone (sampleVideoChunk false 2), sampleVideoChunk false 3, sampleVideoChunk false 5,
   dupClone (sampleVideoChunk false 5)]

/-- A well-formed one-chunk movi payload: tag 00dc, size 1, one data byte,
one pad byte. -/
def samplePayload : List Nat := [48, 48, 100, 99, 1, 0, 0, 0, 7, 0]

/-- The idx1 records matching samplePayload: one keyframe entry at offset 4. -/
def sampleEntries : List IdxEntry := [⟨[48, 48, 100, 99], 16, 4, 1⟩]

/-- The chunk record extracted from samplePayload. -/
def sampleParsedChunk : AviChunk :=
  ⟨[48, 48, 100, 99], 16, [7], true, true, some 0, 0⟩

/-- A concrete 24-byte buffer holding one 16-byte idx1 record after an
8-byte chunk header, for instantiating the index-parser claims. -/
def sampleIdxData : List Nat :=
  [0, 0, 0, 0, 0, 0, 0, 0] ++ [48, 48, 100, 99, 16, 0, 0, 0, 4, 0, 0, 0, 1, 0, 0, 0]

/-! ## Basic lemmas about the data model -/

theorem AviChunk.clone_eq (c : AviChunk) : c.clone = c := by
  cases c; rfl

theorem dupClone_is_keyframe (c : AviChunk) : (dupClone c).is_keyframe = false := rfl

theorem dupClone_is_video (c : AviChunk) : (dupClone c).is_video = c.is_video := rfl

theorem and_sixteen_eq (n : Nat) : n &&& 16 = n / 16 % 2 * 16 := by
  have h1 : n &&& 16 = (n.testBit 4).toNat * 16 := by
    have := Nat.and_two_pow n 4
    norm_num at this
    simpa using this
  rw [h1, Nat.testBit_to_div_mod]
  norm_num
  rcases Nat.mod_two_eq_zero_or_one (n / 16) with h | h <;> simp [h]

theorem dupClone_flag_cleared (c : AviChunk) :
    (dupClone c).flags &&& AVIIF_KEYFRAME = 0 := by
  have hflags : (dupClone c).flags = c.flags - (c.flags &&& 16) := rfl
  simp only [AVIIF_KEYFRAME] at hflags ⊢
  rw [hflags, and_sixteen_eq c.flags, and_sixteen_eq]
  omega

/-! ## Builder lemmas -/

theorem build_go_idx_length (chunks : List AviChunk) (off : Nat) :
    (build_go chunks off).2.1.length = chunks.length := by
  induction chunks generalizing off with
  | nil => rfl
  | cons c rest ih => simp [build_go, ih]

theorem build_go_idx_get (chunks : List AviChunk) (off i : Nat) (hi : i < chunks.length) :
    (build_go chunks off).2.1[i]? = some
      ⟨(chunks.get ⟨i, hi⟩).chunk_id, (chunks.get ⟨i, hi⟩).flags,
       off + ((chunks.take i).map chunkSpan).sum, (chunks.get ⟨i, hi⟩).data.length⟩ := by
  induction chunks generalizing off i with
  | nil => simp at hi
  | cons c rest ih =>
    cases i with
    | zero => simp [build_go]
    | succ n =>
      have hn : n < rest.length := by simpa using hi
      have := ih (off + 8 + c.data.length + c.data.length % 2) n hn
      simp only [build_go, List.getElem?_cons_succ, List.get_cons_succ]
      rw [this]
      congr 2
      simp [chunkSpan]
      omega

theorem build_go_video_frames (chunks : List AviChunk) (off : Nat) :
    (build_go chunks off).2.2 = (chunks.filter (fun c => c.is_video)).length := by
  induction chunks generalizing off with
  | nil => rfl
  | cons c rest ih =>
    by_cases hv : c.is_video <;> simp [build_go, ih, hv] <;> omega

/-- C1: for every chunk sequence given to the container builder, the idx1
entry count equals the movi chunk count (the builder emits exactly one movi
chunk per input chunk, so that count is the length of the sequence), the
i-th entry carries the same tag, flags and declared size as the i-th chunk,
and its recorded offset is the sum of 8 + size + parity-pad over all
preceding chunks, plus 4. -/
theorem C1_builder_index_invariant (chunks : List AviChunk) :
    (buildIdxEntries chunks).length = chunks.length ∧
    ∀ i : Nat, ∀ hi : i < chunks.length,
      (buildIdxEntries chunks)[i]? = some
        ⟨(chunks.get ⟨i, hi⟩).chunk_id, (chunks.get ⟨i, hi⟩).flags,
         4 + ((chunks.take i).map chunkSpan).sum, (chunks.get ⟨i, hi⟩).data.length⟩ := by
  constructor
  · exact build_go_idx_length chunks 4
  · intro i hi
    exact build_go_idx_get chunks 4 i hi

/-- C2 counterexample: on the specification's concrete scenario the engine
does not produce the claimed six-chunk sequence, and the corrected
video-frame count of what it does produce is not 5: P3, the clip's 4th
predicted frame, hits the cadence 2 as well, so it is duplicated too. -/
theorem C2_counterexample :
    process_chunks scenarioChunks scenarioParams = .ok scenarioActualOutput ∧
    scenarioActualOutput ≠ scenarioClaimedOutput ∧
    buildVideoFrames scenarioActualOutput ≠ 5 :=
  ⟨rfl, by decide, by decide⟩

/-- C2 amended: the scenario (keep-leading-keyframes 1, duplicate count 1,
cadence 2, drop-first false, no explicit sets) yields
K0, P0, P1, P1 duplicate, P2, P3, P3 duplicate — K1 dropped over quota, P1
and P3 each duplicated once as the clip's 2nd and 4th predicted frames —
and the corrected video-frame count is 7. -/
theorem C2_amended_scenario :
    process_chunks scenarioChunks scenarioParams = .ok scenarioActualOutput ∧
    buildVideoFrames scenarioActualOutput = 7 :=
  ⟨rfl, rfl⟩

/-! ## Selection engine step lemmas -/

theorem process_step_keyframe (p : ProcessParams) (st : ProcState) (c : AviChunk)
    (out : List AviChunk) (st' : ProcState) (hv : c.is_video = true)
    (hk : c.is_keyframe = true) (hstep : process_step p st c = .ok (out, st')) :
    st'.per_clip_key_index c.clip_id = st.per_clip_key_index c.clip_id + 1 ∧
    st'.global_key_index = st.global_key_index + 1 ∧
    st'.per_clip_p_counter = st.per_clip_p_counter ∧
    out = (if decideKeep (resolveDropFirst p c.clip_id) (resolveDropSet p c.clip_id)
             p.drop_key_indices (resolveKeepSet p c.clip_id) p.keep_key_indices
             (resolveKeepLimit p c.clip_id) (st.per_clip_keys_kept c.clip_id)
             (st.per_clip_key_index c.clip_id) st.global_key_index
           then [c.clone] else []) ∧
    st'.per_clip_keys_kept =
      (if decideKeep (resolveDropFirst p c.clip_id) (resolveDropSet p c.clip_id)
          p.drop_key_indices (resolveKeepSet p c.clip_id) p.keep_key_indices
          (resolveKeepLimit p c.clip_id) (st.per_clip_keys_kept c.clip_id)
          (st.per_clip_key_index c.clip_id) st.global_key_index
       then fupd st.per_clip_keys_kept c.clip_id (st.per_clip_keys_kept c.clip_id + 1)
       else st.per_clip_keys_kept) := by
  simp only [process_step, hv, hk, Bool.true_eq_false, if_false, if_true] at hstep
  split at hstep
  · exact absurd hstep (by simp)
  · split at hstep
    · exact absurd hstep (by simp)
    · injection hstep with h1
      injection h1 with hout hst
      subst hout hst
      refine ⟨by simp [fupd], rfl, rfl, rfl, rfl⟩

theorem process_step_nonvideo (p : ProcessParams) (st : ProcState) (c : AviChunk)
    (hv : c.is_video = false) : process_step p st c = .ok ([c.clone], st) := by
  simp [process_step, hv]

theorem process_step_keyframe_ok (p : ProcessParams) (st : ProcState) (c : AviChunk)
    (hv : c.is_video = true) (hk : c.is_keyframe = true)
    (hdc : 0 ≤ resolveDupCount p c.clip_id) (hdg : 1 ≤ resolveDupGap p c.clip_id) :
    process_step p st c = .ok (kfOut p st c, kfState p st c) := by
  rw [process_step]
  rw [if_neg (by simp [hv]), if_neg (by omega), if_neg (by omega), if_pos hk]
  rfl

theorem process_step_predicted (p : ProcessParams) (st : ProcState) (c : AviChunk)
    (hv : c.is_video = true) (hk : c.is_keyframe = false)
    (hdc : 0 ≤ resolveDupCount p c.clip_id) (hdg : 1 ≤ resolveDupGap p c.clip_id) :
    process_step p st c =
      (if 0 < resolveDupCount p c.clip_id ∧
          ((st.per_clip_p_counter c.clip_id + 1 : Nat) : Int) % resolveDupGap p c.clip_id = 0
       then .ok (c.clone :: List.replicate (resolveDupCount p c.clip_id).toNat (dupClone c),
         pcState st c)
       else .ok ([c.clone], pcState st c)) := by
  rw [process_step]
  rw [if_neg (by simp [hv]), if_neg (by omega), if_neg (by omega), if_neg (by simp [hk])]
  rfl

theorem process_step_error (p : ProcessParams) (st : ProcState) (c : AviChunk)
    (hv : c.is_video = true)
    (hbad : resolveDupCount p c.clip_id < 0 ∨ resolveDupGap p c.clip_id ≤ 0) :
    ∃ msg, process_step p st c = .error msg := by
  simp only [process_step, hv, Bool.true_eq_false, if_false]
  by_cases h1 : resolveDupCount p c.clip_id < 0
  · exact ⟨_, by rw [if_pos h1]⟩
  · have h2 : resolveDupGap p c.clip_id ≤ 0 := by tauto
    exact ⟨_, by rw [if_neg h1, if_pos h2]⟩

theorem process_go_cons (p : ProcessParams) (st : ProcState) (c : AviChunk)
    (rest : List AviChunk) :
    process_go p st (c :: rest) =
      match process_step p st c with
      | .error e => .error e
      | .ok (out, st') =>
        match process_go p st' rest with
        | .error e => .error e
        | .ok tail => .ok (out ++ tail) := rfl

theorem process_go_cons_ok (p : ProcessParams) (st : ProcState) (c : AviChunk)
    (rest o : List AviChunk) (s' : ProcState)
    (hstep : process_step p st c = .ok (o, s')) :
    process_go p st (c :: rest) =
      match process_go p s' rest with
      | .error e => .error e
      | .ok tail => .ok (o ++ tail) := by
  rw [process_go_cons, hstep]

theorem go_dup_length (K : Int) (ks ds : Option (List Int)) (daf : Bool) (cid D G : Nat)
    (hD : 1 ≤ D) (hG : 1 ≤ G) :
    ∀ (chunks : List AviChunk) (st : ProcState), (∀ c ∈ chunks, c.clip_id = cid) →
    ∃ outD out0,
      process_go ⟨K, (D : Int), (G : Int), ks, ds, fun _ => none, daf⟩ st chunks = .ok outD ∧
      process_go ⟨K, 0, (G : Int), ks, ds, fun _ => none, daf⟩ st chunks = .ok out0 ∧
      outD.length + D * (st.per_clip_p_counter cid / G) =
        out0.length + D * ((st.per_clip_p_counter cid + predictedFrames chunks) / G) := by
  intro chunks
  induction chunks with
  | nil =>
    intro st _
    exact ⟨[], [], rfl, rfl, by simp [predictedFrames]⟩
  | cons c rest ih =>
    intro st hclip
    have hcid : c.clip_id = cid := hclip c (List.mem_cons_self c rest)
    have hrest : ∀ x ∈ rest, x.clip_id = cid := fun x hx => hclip x (List.mem_cons_of_mem c hx)
    by_cases hv : c.is_video = true
    · by_cases hk : c.is_keyframe = true
      · -- keyframe step: identical on both sides, no predicted counter change
        have hdcD : (0 : Int) ≤
            resolveDupCount ⟨K, (D : Int), (G : Int), ks, ds, fun _ => none, daf⟩ c.clip_id :=
          Int.natCast_nonneg D
        have hdc0 : (0 : Int) ≤
            resolveDupCount ⟨K, 0, (G : Int), ks, ds, fun _ => none, daf⟩ c.clip_id :=
          le_refl 0
        have hdgD : (1 : Int) ≤
            resolveDupGap ⟨K, (D : Int), (G : Int), ks, ds, fun _ => none, daf⟩ c.clip_id := by
          show (1 : Int) ≤ (G : Int)
          exact_mod_cast hG
        have hdg0 : (1 : Int) ≤
            resolveDupGap ⟨K, 0, (G : Int), ks, ds, fun _ => none, daf⟩ c.clip_id := by
          show (1 : Int) ≤ (G : Int)
          exact_mod_cast hG
        have hstD := process_step_keyframe_ok
          ⟨K, (D : Int), (G : Int), ks, ds, fun _ => none, daf⟩ st c hv hk hdcD hdgD
        have hst0 := process_step_keyframe_ok
          ⟨K, 0, (G : Int), ks, ds, fun _ => none, daf⟩ st c hv hk hdc0 hdg0
        have hout : kfOut ⟨K, 0, (G : Int), ks, ds, fun _ => none, daf⟩ st c =
            kfOut ⟨K, (D : Int), (G : Int), ks, ds, fun _ => none, daf⟩ st c := rfl
        have hstate : kfState ⟨K, 0, (G : Int), ks, ds, fun _ => none, daf⟩ st c =
            kfState ⟨K, (D : Int), (G : Int), ks, ds, fun _ => none, daf⟩ st c := rfl
        rw [hout, hstate] at hst0
        obtain ⟨outD, out0, h1, h2, h3⟩ :=
          ih (kfState ⟨K, (D : Int), (G : Int), ks, ds, fun _ => none, daf⟩ st c) hrest
        refine ⟨kfOut ⟨K, (D : Int), (G : Int), ks, ds, fun _ => none, daf⟩ st c ++ outD,
          kfOut ⟨K, (D : Int), (G : Int), ks, ds, fun _ => none, daf⟩ st c ++ out0, ?_, ?_, ?_⟩
        · rw [process_go_cons_ok _ _ _ _ _ _ hstD, h1]
        · rw [process_go_cons_ok _ _ _ _ _ _ hst0, h2]
        · have hpc : (kfState ⟨K, (D : Int), (G : Int), ks, ds, fun _ => none, daf⟩
              st c).per_clip_p_counter cid = st.per_clip_p_counter cid := rfl
          have hpf : predictedFrames (c :: rest) = predictedFrames rest := by
            simp [predictedFrames, hk]
          rw [hpc] at h3
          simp only [List.length_append, hpf]
          omega
      · -- predicted frame: the only place the two runs differ
        have hk' : c.is_keyframe = false := by revert hk; cases c.is_keyframe <;> simp
        have hdcD : (0 : Int) ≤
            resolveDupCount ⟨K, (D : Int), (G : Int), ks, ds, fun _ => none, daf⟩ c.clip_id :=
          Int.natCast_nonneg D
        have hdc0 : (0 : Int) ≤
            resolveDupCount ⟨K, 0, (G : Int), ks, ds, fun _ => none, daf⟩ c.clip_id :=
          le_refl 0
        have hdgD : (1 : Int) ≤
            resolveDupGap ⟨K, (D : Int), (G : Int), ks, ds, fun _ => none, daf⟩ c.clip_id := by
          show (1 : Int) ≤ (G : Int)
          exact_mod_cast hG
        have hdg0 : (1 : Int) ≤
            resolveDupGap ⟨K, 0, (G : Int), ks, ds, fun _ => none, daf⟩ c.clip_id := by
          show (1 : Int) ≤ (G : Int)
          exact_mod_cast hG
        have hstD := process_step_predicted
          ⟨K, (D : Int), (G : Int), ks, ds, fun _ => none, daf⟩ st c hv hk' hdcD hdgD
        have hst0 := process_step_predicted
          ⟨K, 0, (G : Int), ks, ds, fun _ => none, daf⟩ st c hv hk' hdc0 hdg0
        rw [if_neg (by rintro ⟨hbad, -⟩; exact absurd hbad (by simp [resolveDupCount]))] at hst0
        obtain ⟨outD, out0, h1, h2, h3⟩ := ih (pcState st c) hrest
        have hpc : (pcState st c).per_clip_p_counter cid = st.per_clip_p_counter cid + 1 := by
          simp [pcState, fupd, hcid]
        rw [hpc] at h3
        have hpf : predictedFrames (c :: rest) = predictedFrames rest + 1 := by
          simp [predictedFrames, hk', hv]
        by_cases hdvd : ((st.per_clip_p_counter c.clip_id + 1 : Nat) : Int) %
            resolveDupGap ⟨K, (D : Int), (G : Int), ks, ds, fun _ => none, daf⟩ c.clip_id = 0
        · have hDpos : (0 : Int) < (D : Int) := by exact_mod_cast Nat.lt_of_lt_of_le Nat.zero_lt_one hD
          rw [if_pos ⟨hDpos, hdvd⟩] at hstD
          have hdvdNat : G ∣ (st.per_clip_p_counter cid + 1) := by
            apply Nat.dvd_of_mod_eq_zero
            have hdvd' : ((st.per_clip_p_counter c.clip_id + 1 : Nat) : Int) % (G : Int) = 0 := hdvd
            rw [hcid] at hdvd'
            exact_mod_cast hdvd'
          refine ⟨(c.clone :: List.replicate
              (resolveDupCount ⟨K, (D : Int), (G : Int), ks, ds, fun _ => none, daf⟩
                c.clip_id).toNat (dupClone c)) ++ outD,
            [c.clone] ++ out0, ?_, ?_, ?_⟩
          · rw [process_go_cons_ok _ _ _ _ _ _ hstD, h1]
          · rw [process_go_cons_ok _ _ _ _ _ _ hst0, h2]
          · have hlen : (resolveDupCount ⟨K, (D : Int), (G : Int), ks, ds, fun _ => none, daf⟩
                c.clip_id).toNat = D := by simp [resolveDupCount]
            have hsd : (st.per_clip_p_counter cid + 1) / G = st.per_clip_p_counter cid / G + 1 := by
              rw [Nat.succ_div, if_pos hdvdNat]
            rw [hsd, Nat.mul_add] at h3
            have hL : ((c.clone :: List.replicate
                (resolveDupCount ⟨K, (D : Int), (G : Int), ks, ds, fun _ => none, daf⟩
                  c.clip_id).toNat (dupClone c)) ++ outD).length = 1 + D + outD.length := by
              simp [hlen] <;> omega
            have hR : (([c.clone] : List AviChunk) ++ out0).length = 1 + out0.length := by simp <;> omega
            have harr : st.per_clip_p_counter cid + (predictedFrames rest + 1) =
                st.per_clip_p_counter cid + 1 + predictedFrames rest := by omega
            rw [hL, hR, hpf, harr]
            omega
        · rw [if_neg (by rintro ⟨-, hbad⟩; exact hdvd hbad)] at hstD
          have hdvdNat : ¬ G ∣ (st.per_clip_p_counter cid + 1) := by
            intro hdd
            apply hdvd
            show ((st.per_clip_p_counter c.clip_id + 1 : Nat) : Int) % (G : Int) = 0
            rw [hcid]
            obtain ⟨k, hkk⟩ := hdd
            rw [hkk]
            exact_mod_cast Nat.mul_mod_right G k
          refine ⟨[c.clone] ++ outD, [c.clone] ++ out0, ?_, ?_, ?_⟩
          · rw [process_go_cons_ok _ _ _ _ _ _ hstD, h1]
          · rw [process_go_cons_ok _ _ _ _ _ _ hst0, h2]
          · have hsd : (st.per_clip_p_counter cid + 1) / G = st.per_clip_p_counter cid / G := by
              rw [Nat.succ_div, if_neg hdvdNat]
              omega
            rw [hsd] at h3
            have hL : (([c.clone] : List AviChunk) ++ outD).length = 1 + outD.length := by simp <;> omega
            have hR : (([c.clone] : List AviChunk) ++ out0).length = 1 + out0.length := by simp <;> omega
            have harr : st.per_clip_p_counter cid + (predictedFrames rest + 1) =
                st.per_clip_p_counter cid + 1 + predictedFrames rest := by omega
            rw [hL, hR, hpf, harr]
            omega
    · -- non-video chunk: passes through on both sides, counters untouched
      have hv' : c.is_video = false := by revert hv; cases c.is_video <;> simp
      obtain ⟨outD, out0, h1, h2, h3⟩ := ih st hrest
      refine ⟨[c.clone] ++ outD, [c.clone] ++ out0, ?_, ?_, ?_⟩
      · rw [process_go_cons_ok _ _ _ _ _ _ (process_step_nonvideo _ st c hv'), h1]
      · rw [process_go_cons_ok _ _ _ _ _ _ (process_step_nonvideo _ st c hv'), h2]
      · have hpf : predictedFrames (c :: rest) = predictedFrames rest := by
          simp [predictedFrames, hv']
        simp only [List.length_append, List.length_singleton, hpf]
        omega

/-- C3: a keyframe's fate in the selection engine follows exactly the fixed
precedence of the specification, first match winning — drop-first flag,
clip-local drop-set, global drop-set, clip-local keep-set, global keep-set,
quota, default keep — and every keyframe the engine processes, kept or
dropped, increments both that clip's keyframe-ordinal counter and the global
keyframe-ordinal counter by one. -/
theorem C3_keyframe_precedence :
    (∀ (df : Bool) (lds gds lks gks : Option (List Int)) (q : Int) (kept lo gl : Nat),
       decideKeep df lds gds lks gks q kept lo gl = keyframeFateSpec df lds gds lks gks q kept lo gl) ∧
    (∀ (p : ProcessParams) (st : ProcState) (c : AviChunk) (out : List AviChunk)
       (st' : ProcState), c.is_video = true → c.is_keyframe = true →
       process_step p st c = .ok (out, st') →
       st'.per_clip_key_index c.clip_id = st.per_clip_key_index c.clip_id + 1 ∧
       st'.global_key_index = st.global_key_index + 1 ∧
       out = (if decideKeep (resolveDropFirst p c.clip_id) (resolveDropSet p c.clip_id)
                p.drop_key_indices (resolveKeepSet p c.clip_id) p.keep_key_indices
                (resolveKeepLimit p c.clip_id) (st.per_clip_keys_kept c.clip_id)
                (st.per_clip_key_index c.clip_id) st.global_key_index
              then [c.clone] else [])) := by
  constructor
  · intro df lds gds lks gks q kept lo gl
    rfl
  · intro p st c out st' hv hk hstep
    obtain ⟨h1, h2, _, h4, _⟩ := process_step_keyframe p st c out st' hv hk hstep
    exact ⟨h1, h2, h4⟩

/-- C4: for a clip processed with duplicate count D > 0 and cadence G >= 1
(and no per-clip overrides), the engine inserts exactly D * floor(P / G)
duplicate chunks, where P is the clip's predicted-frame count — stated as:
the run with duplicate count D is exactly D * floor(P / G) chunks longer
than the same run with duplicate count 0, which differs from it only by the
inserted duplicates — and each duplicate batch is emitted with the keyframe
flag cleared, immediately after the predicted frame it copies. -/
theorem C4_duplication_cadence :
    (∀ (K : Int) (ks ds : Option (List Int)) (daf : Bool) (cid D G : Nat)
       (chunks outD out0 : List AviChunk), 1 ≤ D → 1 ≤ G →
       (∀ c ∈ chunks, c.clip_id = cid) →
       process_chunks chunks ⟨K, (D : Int), (G : Int), ks, ds, fun _ => none, daf⟩ = .ok outD →
       process_chunks chunks ⟨K, 0, (G : Int), ks, ds, fun _ => none, daf⟩ = .ok out0 →
       outD.length = out0.length + D * (predictedFrames chunks / G)) ∧
    (∀ (p : ProcessParams) (st : ProcState) (c : AviChunk),
       c.is_video = true → c.is_keyframe = false →
       0 < resolveDupCount p c.clip_id → 1 ≤ resolveDupGap p c.clip_id →
       ((st.per_clip_p_counter c.clip_id + 1 : Nat) : Int) % resolveDupGap p c.clip_id = 0 →
       process_step p st c = .ok
         (c.clone :: List.replicate (resolveDupCount p c.clip_id).toNat (dupClone c),
          pcState st c) ∧
       (dupClone c).is_keyframe = false ∧ (dupClone c).flags &&& AVIIF_KEYFRAME = 0) := by
  constructor
  · intro K ks ds daf cid D G chunks outD out0 hD hG hclip hrunD hrun0
    obtain ⟨oD, o0, g1, g2, g3⟩ := go_dup_length K ks ds daf cid D G hD hG chunks initState hclip
    rw [process_chunks, if_neg (by show ¬ ((D : Int) < 0); omega),
      if_neg (by show ¬ ((G : Int) ≤ 0); omega), g1] at hrunD
    rw [process_chunks, if_neg (by show ¬ ((0 : Int) < 0); omega),
      if_neg (by show ¬ ((G : Int) ≤ 0); omega), g2] at hrun0
    injection hrunD with hD'
    injection hrun0 with h0'
    subst hD' h0'
    have hz : initState.per_clip_p_counter cid = 0 := rfl
    rw [hz, Nat.zero_div, Nat.zero_add, Nat.mul_zero, Nat.add_zero] at g3
    omega
  · intro p st c hv hk hdc hdg hmod
    refine ⟨?_, rfl, dupClone_flag_cleared c⟩
    have hstep := process_step_predicted p st c hv hk (le_of_lt hdc) hdg
    rw [if_pos ⟨hdc, hmod⟩] at hstep
    exact hstep

theorem decideKeep_default (K : Int) (kept cki gki : Nat) :
    decideKeep false none none none none K kept cki gki = decide ((kept : Int) < K) := by
  by_cases h : K ≤ (kept : Int)
  · simp [decideKeep, memOpt, h, not_lt.mpr h]
  · simp [decideKeep, memOpt, h, not_le.mp h]

theorem filter_replicate_neg (n : Nat) (x : AviChunk) (f : AviChunk → Bool)
    (hf : f x = false) : (List.replicate n x).filter f = [] := by
  induction n with
  | zero => rfl
  | succ m ih => simp [List.replicate_succ, List.filter_cons, hf, ih]

theorem kf_false_of_nonvideo (c : AviChunk) (hkf : c.is_keyframe = true → c.is_video = true)
    (hv : c.is_video = false) : c.is_keyframe = false := by
  cases hck : c.is_keyframe
  · rfl
  · rw [hkf hck] at hv
    cases hv

theorem go_no_sets (K d g : Int) (daf : Bool) (hd : 0 ≤ d) (hg : 1 ≤ g) :
    ∀ (chunks : List AviChunk) (st : ProcState),
    (∀ c ∈ chunks, c.clip_id = 0) →
    (∀ c ∈ chunks, c.is_keyframe = true → c.is_video = true) →
    ∃ out, process_go ⟨K, d, g, none, none, fun _ => none, daf⟩ st chunks = .ok out ∧
      out.filter (fun x => x.is_keyframe) =
        (chunks.filter (fun x => x.is_keyframe)).take (K - (st.per_clip_keys_kept 0 : Int)).toNat := by
  intro chunks
  induction chunks with
  | nil =>
    intro st _ _
    exact ⟨[], rfl, by simp⟩
  | cons c rest ih =>
    intro st hclip hkf
    have hcid : c.clip_id = 0 := hclip c (List.mem_cons_self c rest)
    have hrest : ∀ x ∈ rest, x.clip_id = 0 := fun x hx => hclip x (List.mem_cons_of_mem c hx)
    have hkfrest : ∀ x ∈ rest, x.is_keyframe = true → x.is_video = true :=
      fun x hx => hkf x (List.mem_cons_of_mem c hx)
    have hdc : (0 : Int) ≤ resolveDupCount ⟨K, d, g, none, none, fun _ => none, daf⟩ c.clip_id := hd
    have hdg : (1 : Int) ≤ resolveDupGap ⟨K, d, g, none, none, fun _ => none, daf⟩ c.clip_id := hg
    by_cases hv : c.is_video = true
    · by_cases hk : c.is_keyframe = true
      · -- keyframe: the keep decision is exactly the quota test
        have hkeep : kfKeep ⟨K, d, g, none, none, fun _ => none, daf⟩ st c =
            decide ((st.per_clip_keys_kept 0 : Int) < K) := by
          simp only [kfKeep, hcid, resolveDropFirst, resolveDropSet, resolveKeepSet,
            resolveKeepLimit]
          simp only [bne_self_eq_false, Bool.and_false]
          exact decideKeep_default K (st.per_clip_keys_kept 0) (st.per_clip_key_index 0)
            st.global_key_index
        have hstep := process_step_keyframe_ok ⟨K, d, g, none, none, fun _ => none, daf⟩
          st c hv hk hdc hdg
        by_cases hlt : (st.per_clip_keys_kept 0 : Int) < K
        · -- kept: consumes one slot of the quota
          have hkept : (kfState ⟨K, d, g, none, none, fun _ => none, daf⟩
              st c).per_clip_keys_kept 0 = st.per_clip_keys_kept 0 + 1 := by
            simp [kfState, hkeep, hlt, fupd, hcid]
          obtain ⟨out, h1, h2⟩ := ih (kfState ⟨K, d, g, none, none, fun _ => none, daf⟩ st c)
            hrest hkfrest
          rw [hkept] at h2
          refine ⟨kfOut ⟨K, d, g, none, none, fun _ => none, daf⟩ st c ++ out, ?_, ?_⟩
          · rw [process_go_cons_ok _ _ _ _ _ _ hstep, h1]
          · have hout : kfOut ⟨K, d, g, none, none, fun _ => none, daf⟩ st c = [c.clone] := by
              simp [kfOut, hkeep, hlt]
            rw [hout, AviChunk.clone_eq]
            have hn : (K - (st.per_clip_keys_kept 0 : Int)).toNat =
                (K - ((st.per_clip_keys_kept 0 : Nat) + 1 : Nat)).toNat + 1 := by omega
            simp only [List.filter_append, List.filter_cons, hk, if_true, List.filter_nil,
              h2, hn]
            simp [hk]
        · -- over quota: dropped
          have hkept : (kfState ⟨K, d, g, none, none, fun _ => none, daf⟩
              st c).per_clip_keys_kept 0 = st.per_clip_keys_kept 0 := by
            simp [kfState, hkeep, hlt]
          obtain ⟨out, h1, h2⟩ := ih (kfState ⟨K, d, g, none, none, fun _ => none, daf⟩ st c)
            hrest hkfrest
          rw [hkept] at h2
          refine ⟨kfOut ⟨K, d, g, none, none, fun _ => none, daf⟩ st c ++ out, ?_, ?_⟩
          · rw [process_go_cons_ok _ _ _ _ _ _ hstep, h1]
          · have hout : kfOut ⟨K, d, g, none, none, fun _ => none, daf⟩ st c = [] := by
              simp [kfOut, hkeep, hlt]
            have hn : (K - (st.per_clip_keys_kept 0 : Int)).toNat = 0 := by omega
            rw [hn] at h2
            rw [hout, hn]
            simp only [List.nil_append, List.take_zero] at h2 ⊢
            exact h2
      · -- predicted frame: never a keyframe, and duplicates are cleared
        have hk' : c.is_keyframe = false := by revert hk; cases c.is_keyframe <;> simp
        have hstep := process_step_predicted ⟨K, d, g, none, none, fun _ => none, daf⟩
          st c hv hk' hdc hdg
        have hkept : (pcState st c).per_clip_keys_kept 0 = st.per_clip_keys_kept 0 := rfl
        obtain ⟨out, h1, h2⟩ := ih (pcState st c) hrest hkfrest
        rw [hkept] at h2
        by_cases hcond : 0 < resolveDupCount ⟨K, d, g, none, none, fun _ => none, daf⟩ c.clip_id ∧
            ((st.per_clip_p_counter c.clip_id + 1 : Nat) : Int) %
              resolveDupGap ⟨K, d, g, none, none, fun _ => none, daf⟩ c.clip_id = 0
        · rw [if_pos hcond] at hstep
          refine ⟨(c.clone :: List.replicate
              (resolveDupCount ⟨K, d, g, none, none, fun _ => none, daf⟩ c.clip_id).toNat
              (dupClone c)) ++ out, ?_, ?_⟩
          · rw [process_go_cons_ok _ _ _ _ _ _ hstep, h1]
          · rw [AviChunk.clone_eq]
            simp only [List.filter_append, List.filter_cons, hk',
              filter_replicate_neg _ _ _ (dupClone_is_keyframe c), h2]
            simp [hk']
        · rw [if_neg hcond] at hstep
          refine ⟨[c.clone] ++ out, ?_, ?_⟩
          · rw [process_go_cons_ok _ _ _ _ _ _ hstep, h1]
          · rw [AviChunk.clone_eq]
            simp only [List.filter_append, List.filter_cons, hk', h2]
            simp [hk']
    · -- non-video: passes through, no keyframe, no counter change
      have hv' : c.is_video = false := by revert hv; cases c.is_video <;> simp
      have hk' : c.is_keyframe = false :=
        kf_false_of_nonvideo c (hkf c (List.mem_cons_self c rest)) hv'
      obtain ⟨out, h1, h2⟩ := ih st hrest hkfrest
      refine ⟨[c.clone] ++ out, ?_, ?_⟩
      · rw [process_go_cons_ok _ _ _ _ _ _ (process_step_nonvideo _ st c hv'), h1]
      · rw [AviChunk.clone_eq]
        simp only [List.filter_append, List.filter_cons, hk', h2]
        simp [hk']

/-- C6: with keep-leading-keyframes K and no explicit keep or drop sets, a
clip keeps exactly min(K, its total keyframe count) keyframes, and the
survivors are precisely the first K keyframes in clip-local order. -/
theorem C6_keyframe_quota (chunks out : List AviChunk) (K : Nat) (d g : Int) (daf : Bool)
    (hclip : ∀ c ∈ chunks, c.clip_id = 0)
    (hkf : ∀ c ∈ chunks, c.is_keyframe = true → c.is_video = true)
    (hd : 0 ≤ d) (hg : 1 ≤ g)
    (hrun : process_chunks chunks ⟨(K : Int), d, g, none, none, fun _ => none, daf⟩ = .ok out) :
    out.filter (fun c => c.is_keyframe) = (chunks.filter (fun c => c.is_keyframe)).take K ∧
    (out.filter (fun c => c.is_keyframe)).length =
      min K (chunks.filter (fun c => c.is_keyframe)).length := by
  obtain ⟨out', h1, h2⟩ := go_no_sets (K : Int) d g daf hd hg chunks initState hclip hkf
  rw [process_chunks, if_neg (by show ¬ (d < 0); omega),
    if_neg (by show ¬ (g ≤ 0); omega), h1] at hrun
  injection hrun with hrun'
  subst hrun'
  have hz : (initState.per_clip_keys_kept 0 : Int) = 0 := rfl
  rw [hz, sub_zero, Int.toNat_natCast] at h2
  exact ⟨h2, by rw [h2, List.length_take]⟩

theorem C6_keyframe_quota_witness :
    (scenarioQuotaOutput.filter (fun c => c.is_keyframe) =
      (scenarioChunks.filter (fun c => c.is_keyframe)).take 1) ∧
    ((scenarioQuotaOutput.filter (fun c => c.is_keyframe)).length =
      min 1 (scenarioChunks.filter (fun c => c.is_keyframe)).length) :=
  C6_keyframe_quota scenarioChunks scenarioQuotaOutput 1 0 1 true
    (by decide) (by decide) (by decide) (by decide) rfl

/-! ## Extractor lemmas -/

theorem subBytes_length (data : List Nat) (a b : Nat) :
    (subBytes data a b).length = min b data.length - a := by
  simp [subBytes]

theorem chunkAt_clip (payload : List Nat) (clip pos : Nat) (e : IdxEntry) :
    (chunkAt payload clip pos e).clip_id = clip := rfl

theorem chunkAt_chunk_id (payload : List Nat) (clip pos : Nat) (e : IdxEntry) :
    (chunkAt payload clip pos e).chunk_id = subBytes payload pos (pos + 4) := rfl

theorem chunkAt_flags (payload : List Nat) (clip pos : Nat) (e : IdxEntry) :
    (chunkAt payload clip pos e).flags = e.flags := rfl

theorem chunkAt_kf_video (payload : List Nat) (clip pos : Nat) (e : IdxEntry)
    (h : (chunkAt payload clip pos e).is_keyframe = true) :
    (chunkAt payload clip pos e).is_video = true := by
  have hdef : (chunkAt payload clip pos e).is_keyframe =
      ((e.flags &&& AVIIF_KEYFRAME != 0) && (chunkAt payload clip pos e).is_video) := rfl
  rw [hdef] at h
  simp only [Bool.and_eq_true] at h
  exact h.2

theorem chunkAt_data_length (payload : List Nat) (clip pos : Nat) (e : IdxEntry)
    (h : pos + 8 + read_le_uint payload (pos + 4) ≤ payload.length) :
    (chunkAt payload clip pos e).data.length = read_le_uint payload (pos + 4) := by
  show (subBytes payload (pos + 8) (pos + 8 + read_le_uint payload (pos + 4))).length = _
  rw [subBytes_length]
  omega

theorem parse_movi_go_props (payload : List Nat) (clip : Nat) :
    ∀ (entries : List IdxEntry) (pos : Nat) (chunks : List AviChunk),
    parse_movi_go payload clip pos entries = .ok chunks →
    (∀ c ∈ chunks, c.clip_id = clip ∧ (c.is_keyframe = true → c.is_video = true)) ∧
    chunks.length = entries.length ∧
    (build_go chunks (pos + 4)).2.1 = entries := by
  intro entries
  induction entries with
  | nil =>
    intro pos chunks hp
    rw [parse_movi_go] at hp
    by_cases h8 : pos + 8 ≤ payload.length
    · rw [if_pos h8] at hp
      by_cases hlist : subBytes payload pos (pos + 4) = LIST_TAG
      · rw [if_pos hlist] at hp
        cases hp
      · rw [if_neg hlist] at hp
        by_cases hsize : payload.length < pos + 8 + read_le_uint payload (pos + 4)
        · rw [if_pos hsize] at hp
          cases hp
        · rw [if_neg hsize] at hp
          cases hp
    · rw [if_neg h8, if_neg (by simp)] at hp
      injection hp with hp'
      subst hp'
      exact ⟨by simp, rfl, rfl⟩
  | cons e rest ih =>
    intro pos chunks hp
    rw [parse_movi_go] at hp
    by_cases h8 : pos + 8 ≤ payload.length
    · rw [if_pos h8] at hp
      by_cases hlist : subBytes payload pos (pos + 4) = LIST_TAG
      · rw [if_pos hlist] at hp
        cases hp
      · rw [if_neg hlist] at hp
        by_cases hsize : payload.length < pos + 8 + read_le_uint payload (pos + 4)
        · rw [if_pos hsize] at hp
          cases hp
        · rw [if_neg hsize] at hp
          by_cases hid : e.chunk_id ≠ subBytes payload pos (pos + 4)
          · rw [if_pos hid] at hp
            cases hp
          · rw [if_neg hid] at hp
            by_cases hsz : e.size ≠ read_le_uint payload (pos + 4)
            · rw [if_pos hsz] at hp
              cases hp
            · rw [if_neg hsz] at hp
              by_cases hoff : e.offset ≠ pos + 4
              · rw [if_pos hoff] at hp
                cases hp
              · rw [if_neg hoff] at hp
                cases hrec : parse_movi_go payload clip
                    (pos + 8 + read_le_uint payload (pos + 4) +
                      read_le_uint payload (pos + 4) % 2) rest with
                | error err =>
                  rw [hrec] at hp
                  cases hp
                | ok r =>
                  rw [hrec] at hp
                  injection hp with hp'
                  subst hp'
                  obtain ⟨hmem, hlen, hbuild⟩ := ih _ _ hrec
                  refine ⟨?_, by simp [hlen], ?_⟩
                  · intro x hx
                    rcases List.mem_cons.mp hx with hx0 | hxr
                    · subst hx0
                      exact ⟨chunkAt_clip payload clip pos e, chunkAt_kf_video payload clip pos e⟩
                    · exact hmem x hxr
                  · have hdl : (chunkAt payload clip pos e).data.length =
                        read_le_uint payload (pos + 4) :=
                      chunkAt_data_length payload clip pos e (by omega)
                    have hid' : e.chunk_id = subBytes payload pos (pos + 4) := not_ne_iff.mp hid
                    have hsz' : e.size = read_le_uint payload (pos + 4) := not_ne_iff.mp hsz
                    have hoff' : e.offset = pos + 4 := not_ne_iff.mp hoff
                    simp only [build_go, hdl, chunkAt_chunk_id, chunkAt_flags]
                    have harr : pos + 4 + 8 + read_le_uint payload (pos + 4) +
                        read_le_uint payload (pos + 4) % 2 =
                        pos + 8 + read_le_uint payload (pos + 4) +
                          read_le_uint payload (pos + 4) % 2 + 4 := by omega
                    rw [harr, hbuild]
                    rw [← hid', ← hsz', ← hoff']
    · rw [if_neg h8] at hp
      rw [if_pos (by simp)] at hp
      cases hp

/-- Round-trip core: with keep-leading-keyframes large enough for every
keyframe still to come, duplicate count 0 and no explicit sets, the
selection loop reproduces its input exactly. -/
theorem go_identity (K g : Int) (daf : Bool) (hg : 1 ≤ g) :
    ∀ (chunks : List AviChunk) (st : ProcState),
    (∀ c ∈ chunks, c.clip_id = 0) →
    (∀ c ∈ chunks, c.is_keyframe = true → c.is_video = true) →
    ((st.per_clip_keys_kept 0 : Int) + (keyframeCount chunks : Int) ≤ K) →
    process_go ⟨K, 0, g, none, none, fun _ => none, daf⟩ st chunks = .ok chunks := by
  intro chunks
  induction chunks with
  | nil =>
    intro st _ _ _
    rfl
  | cons c rest ih =>
    intro st hclip hkf hquota
    have hcid : c.clip_id = 0 := hclip c (List.mem_cons_self c rest)
    have hrest : ∀ x ∈ rest, x.clip_id = 0 := fun x hx => hclip x (List.mem_cons_of_mem c hx)
    have hkfrest : ∀ x ∈ rest, x.is_keyframe = true → x.is_video = true :=
      fun x hx => hkf x (List.mem_cons_of_mem c hx)
    have hdc : (0 : Int) ≤ resolveDupCount ⟨K, 0, g, none, none, fun _ => none, daf⟩ c.clip_id :=
      le_refl 0
    have hdg : (1 : Int) ≤ resolveDupGap ⟨K, 0, g, none, none, fun _ => none, daf⟩ c.clip_id := hg
    by_cases hv : c.is_video = true
    · by_cases hk : c.is_keyframe = true
      · have hcount : keyframeCount (c :: rest) = keyframeCount rest + 1 := by
          simp [keyframeCount, hk]
        have hkeep : kfKeep ⟨K, 0, g, none, none, fun _ => none, daf⟩ st c =
            decide ((st.per_clip_keys_kept 0 : Int) < K) := by
          simp only [kfKeep, hcid, resolveDropFirst, resolveDropSet, resolveKeepSet,
            resolveKeepLimit]
          simp only [bne_self_eq_false, Bool.and_false]
          exact decideKeep_default K (st.per_clip_keys_kept 0) (st.per_clip_key_index 0)
            st.global_key_index
        have hlt : (st.per_clip_keys_kept 0 : Int) < K := by
          rw [hcount] at hquota
          push_cast at hquota
          omega
        have hstep := process_step_keyframe_ok ⟨K, 0, g, none, none, fun _ => none, daf⟩
          st c hv hk hdc hdg
        have hkept : (kfState ⟨K, 0, g, none, none, fun _ => none, daf⟩
            st c).per_clip_keys_kept 0 = st.per_clip_keys_kept 0 + 1 := by
          simp [kfState, hkeep, hlt, fupd, hcid]
        have hrec := ih (kfState ⟨K, 0, g, none, none, fun _ => none, daf⟩ st c) hrest hkfrest
          (by
            rw [hkept]
            rw [hcount] at hquota
            push_cast at hquota ⊢
            omega)
        have hout : kfOut ⟨K, 0, g, none, none, fun _ => none, daf⟩ st c = [c.clone] := by
          simp [kfOut, hkeep, hlt]
        rw [process_go_cons_ok _ _ _ _ _ _ hstep, hrec, hout, AviChunk.clone_eq]
        rfl
      · have hk' : c.is_keyframe = false := by revert hk; cases c.is_keyframe <;> simp
        have hcount : keyframeCount (c :: rest) = keyframeCount rest := by
          simp [keyframeCount, hk']
        have hstep := process_step_predicted ⟨K, 0, g, none, none, fun _ => none, daf⟩
          st c hv hk' hdc hdg
        rw [if_neg (by rintro ⟨hbad, -⟩; exact absurd hbad (by simp [resolveDupCount]))] at hstep
        have hrec := ih (pcState st c) hrest hkfrest (by rw [hcount] at hquota; exact hquota)
        rw [process_go_cons_ok _ _ _ _ _ _ hstep, hrec, AviChunk.clone_eq]
        rfl
    · have hv' : c.is_video = false := by revert hv; cases c.is_video <;> simp
      have hk' : c.is_keyframe = false :=
        kf_false_of_nonvideo c (hkf c (List.mem_cons_self c rest)) hv'
      have hcount : keyframeCount (c :: rest) = keyframeCount rest := by
        simp [keyframeCount, hk']
      have hrec := ih st hrest hkfrest (by rw [hcount] at hquota; exact hquota)
      rw [process_go_cons_ok _ _ _ _ _ _ (process_step_nonvideo _ st c hv'), hrec,
        AviChunk.clone_eq]
      rfl

/-- C5: on any well-formed input (one whose movi payload and idx1 records
extract successfully as clip 0), transforming with keep-leading-keyframes at
least the keyframe count, duplicate count 0 and any cadence reproduces the
extracted chunk sequence exactly, and rebuilding the index from the result
yields records identical to the original idx1 records — same tag, flags and
size, and a recomputed offset that is numerically the original offset — so
each rebuilt entry is byte-for-byte the original entry. -/
theorem C5_roundtrip_identity (payload : List Nat) (entries : List IdxEntry)
    (chunks out : List AviChunk) (K g : Int) (daf : Bool)
    (hparse : parse_movi_chunks payload entries 0 = .ok chunks)
    (hK : (keyframeCount chunks : Int) ≤ K) (hg : 1 ≤ g)
    (hrun : process_chunks chunks ⟨K, 0, g, none, none, fun _ => none, daf⟩ = .ok out) :
    out = chunks ∧ buildIdxEntries out = entries ∧
    (buildIdxEntries out).map idxEntryBytes = entries.map idxEntryBytes := by
  obtain ⟨hmem, hlen, hbuild⟩ := parse_movi_go_props payload 0 entries 0 chunks hparse
  have hclip : ∀ c ∈ chunks, c.clip_id = 0 := fun c hc => (hmem c hc).1
  have hkf : ∀ c ∈ chunks, c.is_keyframe = true → c.is_video = true := fun c hc => (hmem c hc).2
  have hid := go_identity K g daf hg chunks initState hclip hkf
    (by
      have hz : (initState.per_clip_keys_kept 0 : Int) = 0 := rfl
      rw [hz]
      omega)
  rw [process_chunks, if_neg (by show ¬ ((0 : Int) < 0); omega),
    if_neg (by show ¬ (g ≤ 0); omega), hid] at hrun
  injection hrun with hrun'
  subst hrun'
  have hb2 : buildIdxEntries chunks = entries := by simpa using hbuild
  exact ⟨rfl, hb2, by rw [hb2]⟩

theorem C5_roundtrip_identity_witness :
    (sampleParsedChunk :: []) = [sampleParsedChunk] ∧
    buildIdxEntries [sampleParsedChunk] = sampleEntries ∧
    (buildIdxEntries [sampleParsedChunk]).map idxEntryBytes =
      sampleEntries.map idxEntryBytes :=
  C5_roundtrip_identity samplePayload sampleEntries [sampleParsedChunk] [sampleParsedChunk]
    1 1 true rfl (by decide) (by decide) rfl

/-- C9: a policy with a negative duplicate count or a non-positive
duplication cadence fails fast as an invalid-configuration error: the global
fallback values are validated before the pass starts, and every per-clip
resolved policy is validated when a video chunk of that clip is reached,
aborting the pass at that chunk. -/
theorem C9_policy_validation :
    (∀ (chunks : List AviChunk) (p : ProcessParams), p.duplicate_count < 0 →
       process_chunks chunks p = .error "duplicate_count must be >= 0") ∧
    (∀ (chunks : List AviChunk) (p : ProcessParams), 0 ≤ p.duplicate_count →
       p.duplicate_gap ≤ 0 →
       process_chunks chunks p = .error "duplicate_gap must be >= 1") ∧
    (∀ (p : ProcessParams) (st : ProcState) (c : AviChunk) (rest : List AviChunk),
       c.is_video = true →
       (resolveDupCount p c.clip_id < 0 ∨ resolveDupGap p c.clip_id ≤ 0) →
       ∃ msg, process_step p st c = .error msg ∧
         process_go p st (c :: rest) = .error msg) := by
  refine ⟨?_, ?_, ?_⟩
  · intro chunks p h
    simp [process_chunks, h]
  · intro chunks p h0 h
    rw [process_chunks, if_neg (by omega), if_pos h]
  · intro p st c rest hv hbad
    obtain ⟨msg, hmsg⟩ := process_step_error p st c hv hbad
    exact ⟨msg, hmsg, by rw [process_go_cons, hmsg]⟩

/-! ## Index parser lemmas -/

theorem parse_idx1_go_eq (data : List Nat) (endPos : Nat) :
    ∀ (n pos : Nat), endPos - pos = n →
    parse_idx1_go data endPos pos =
      if (endPos - pos) % 16 = 0 ∧ pos ≤ endPos then
        .ok ((List.range ((endPos - pos) / 16)).map (fun i => idx1EntryAt data (pos + 16 * i)))
      else .error "idx1 chunk has trailing bytes" := by
  intro n
  induction n using Nat.strong_induction_on with
  | _ n ih =>
    intro pos hpos
    rw [parse_idx1_go]
    by_cases h16 : pos + 16 ≤ endPos
    · rw [dif_pos h16]
      rw [ih (endPos - (pos + 16)) (by omega) (pos + 16) rfl]
      by_cases hc : (endPos - pos) % 16 = 0
      · rw [if_pos ⟨by omega, by omega⟩, if_pos ⟨hc, by omega⟩]
        simp only [Except.map]
        have hm : (endPos - pos) / 16 = (endPos - (pos + 16)) / 16 + 1 := by omega
        rw [hm, List.range_succ_eq_map, List.map_cons, List.map_map]
        have hfun : (fun i => idx1EntryAt data (pos + 16 * i)) ∘ (fun i => i + 1) =
            fun i => idx1EntryAt data (pos + 16 + 16 * i) := by
          funext i
          simp only [Function.comp]
          congr 1
          ring
        rw [hfun]
        have hz : pos + 16 * 0 = pos := by omega
        rw [hz]
      · rw [if_neg (by omega), if_neg (by omega)]
        rfl
    · rw [dif_neg h16]
      by_cases hend : pos = endPos
      · subst hend
        rw [if_neg (by omega), if_pos ⟨by omega, le_refl pos⟩]
        simp
      · rw [if_pos hend, if_neg (by omega)]

/-- C10: an idx1 chunk whose declared size is not an exact multiple of 16
makes index parsing fail with the trailing-bytes structural error; a size
that is a multiple of 16 parses successfully into exactly size / 16 records,
in file order (the i-th record read at byte offset idx1_pos + 8 + 16 i). -/
theorem C10_idx1_granularity (data : List Nat) (idx1_pos idx1_size : Nat)
    (hdata : idx1_pos + 8 + idx1_size ≤ data.length) :
    (idx1_size % 16 ≠ 0 →
      parse_idx1 data idx1_pos idx1_size = .error "idx1 chunk has trailing bytes") ∧
    (idx1_size % 16 = 0 →
      parse_idx1 data idx1_pos idx1_size =
        .ok ((List.range (idx1_size / 16)).map
          (fun i => idx1EntryAt data (idx1_pos + 8 + 16 * i)))) := by
  have heq := parse_idx1_go_eq data (idx1_pos + 8 + idx1_size) idx1_size (idx1_pos + 8) (by omega)
  have hsub : idx1_pos + 8 + idx1_size - (idx1_pos + 8) = idx1_size := by omega
  rw [hsub] at heq
  constructor
  · intro hmod
    rw [parse_idx1, heq, if_neg (by omega)]
  · intro hmod
    rw [parse_idx1, heq, if_pos ⟨hmod, by omega⟩]

theorem C10_idx1_granularity_witness :
    ((16 : Nat) % 16 ≠ 0 →
      parse_idx1 sampleIdxData 0 16 = .error "idx1 chunk has trailing bytes") ∧
    ((16 : Nat) % 16 = 0 →
      parse_idx1 sampleIdxData 0 16 =
        .ok ((List.range (16 / 16)).map (fun i => idx1EntryAt sampleIdxData (0 + 8 + 16 * i)))) :=
  C10_idx1_granularity sampleIdxData 0 16 (by decide)

/-! ## Header patch lemmas -/

theorem le32_length (v : Nat) : (le32 v).length = 4 := rfl

theorem pack_le_uint_length (b : List Nat) (off v : Nat) (h : off + 4 ≤ b.length) :
    (pack_le_uint b off v).length = b.length := by
  simp [pack_le_uint, le32]
  omega

theorem bget_pack (b : List Nat) (off v i : Nat) (h : off + 4 ≤ b.length) :
    bget (pack_le_uint b off v) i =
      if i < off then bget b i
      else if i < off + 4 then (le32 v).getD (i - off) 0
      else bget b i := by
  have htake : (b.take off).length = off := by
    rw [List.length_take]
    omega
  have hlen2 : (b.take off ++ le32 v).length = off + 4 := by
    rw [List.length_append, htake, le32_length]
  unfold pack_le_uint bget
  by_cases h1 : i < off
  · rw [if_pos h1]
    rw [List.getD_append _ _ _ _ (by omega)]
    rw [List.getD_append _ _ _ _ (by omega)]
    rw [List.getD_eq_getElem?_getD, List.getD_eq_getElem?_getD, List.getElem?_take,
      if_pos h1]
  · by_cases h2 : i < off + 4
    · rw [if_neg h1, if_pos h2]
      rw [List.getD_append _ _ _ _ (by omega)]
      rw [List.getD_append_right _ _ _ _ (by omega)]
      rw [htake]
    · rw [if_neg h1, if_neg h2]
      rw [List.getD_append_right _ _ _ _ (by omega)]
      rw [hlen2]
      rw [List.getD_eq_getElem?_getD, List.getD_eq_getElem?_getD, List.getElem?_drop]
      have hidx : off + 4 + (i - (off + 4)) = i := by omega
      rw [hidx]

theorem read_le_uint_pack_self (b : List Nat) (off v : Nat) (h : off + 4 ≤ b.length) :
    read_le_uint (pack_le_uint b off v) off = v % 4294967296 := by
  unfold read_le_uint
  rw [bget_pack b off v off h, bget_pack b off v (off + 1) h, bget_pack b off v (off + 2) h,
    bget_pack b off v (off + 3) h]
  rw [if_neg (by omega), if_pos (by omega), if_neg (by omega), if_pos (by omega),
    if_neg (by omega), if_pos (by omega), if_neg (by omega), if_pos (by omega)]
  rw [show off - off = 0 from by omega, show off + 1 - off = 1 from by omega,
    show off + 2 - off = 2 from by omega, show off + 3 - off = 3 from by omega]
  simp only [le32, List.getD]
  simp
  omega

theorem read_le_uint_pack_other (b : List Nat) (off v o : Nat) (h : off + 4 ≤ b.length)
    (hdisj : o + 4 ≤ off ∨ off + 4 ≤ o) :
    read_le_uint (pack_le_uint b off v) o = read_le_uint b o := by
  have hb : ∀ i, (i < off ∨ off + 4 ≤ i) → bget (pack_le_uint b off v) i = bget b i := by
    intro i hi
    rw [bget_pack b off v i h]
    rcases hi with hi | hi
    · rw [if_pos hi]
    · rw [if_neg (by omega), if_neg (by omega)]
  unfold read_le_uint
  rw [hb o (by omega), hb (o + 1) (by omega), hb (o + 2) (by omega), hb (o + 3) (by omega)]

theorem update_header_counts_eq_foldl (pfx : List Nat) (offsets : AviHeaderOffsets) (n : Nat) :
    update_header_counts pfx offsets n =
      (headerOffsetList offsets).foldl (fun buf off => pack_le_uint buf off n) pfx := by
  unfold update_header_counts headerOffsetList
  cases h1 : offsets.total_frames <;> cases h2 : offsets.video_stream_length <;>
    simp [List.foldl_append]

theorem foldl_pack_length (n : Nat) : ∀ (offs : List Nat) (b : List Nat),
    (∀ o ∈ offs, o + 4 ≤ b.length) →
    (offs.foldl (fun buf off => pack_le_uint buf off n) b).length = b.length := by
  intro offs
  induction offs with
  | nil => intro b _; rfl
  | cons o rest ih =>
    intro b hin
    have ho : o + 4 ≤ b.length := hin o (List.mem_cons_self o rest)
    rw [List.foldl_cons,
      ih _ (fun x hx => by rw [pack_le_uint_length b o n ho]; exact hin x (List.mem_cons_of_mem o hx)),
      pack_le_uint_length b o n ho]

theorem foldl_pack_read_preserved (n : Nat) : ∀ (offs : List Nat) (b : List Nat) (o : Nat),
    (∀ x ∈ offs, x + 4 ≤ b.length) →
    (∀ x ∈ offs, o + 4 ≤ x ∨ x + 4 ≤ o) →
    read_le_uint (offs.foldl (fun buf off => pack_le_uint buf off n) b) o = read_le_uint b o := by
  intro offs
  induction offs with
  | nil => intro b o _ _; rfl
  | cons x rest ih =>
    intro b o hin hdisj
    have hx : x + 4 ≤ b.length := hin x (List.mem_cons_self x rest)
    rw [List.foldl_cons,
      ih _ o (fun y hy => by
          rw [pack_le_uint_length b x n hx]
          exact hin y (List.mem_cons_of_mem x hy))
        (fun y hy => hdisj y (List.mem_cons_of_mem x hy)),
      read_le_uint_pack_other b x n o hx
        (by rcases hdisj x (List.mem_cons_self x rest) with hd | hd <;> omega)]

theorem foldl_pack_read (n : Nat) (hn : n < 4294967296) : ∀ (offs : List Nat) (b : List Nat)
    (o : Nat), (∀ x ∈ offs, x + 4 ≤ b.length) →
    List.Pairwise (fun a c => a + 4 ≤ c ∨ c + 4 ≤ a) offs →
    o ∈ offs →
    read_le_uint (offs.foldl (fun buf off => pack_le_uint buf off n) b) o = n := by
  intro offs
  induction offs with
  | nil => intro b o _ _ ho; cases ho
  | cons x rest ih =>
    intro b o hin hpair ho
    have hx : x + 4 ≤ b.length := hin x (List.mem_cons_self x rest)
    rcases List.mem_cons.mp ho with ho0 | hor
    · subst ho0
      rw [List.foldl_cons]
      rw [foldl_pack_read_preserved n rest (pack_le_uint b o n) o
        (fun y hy => by
          rw [pack_le_uint_length b o n hx]
          exact hin y (List.mem_cons_of_mem o hy))
        (fun y hy => (List.pairwise_cons.mp hpair).1 y hy)]
      rw [read_le_uint_pack_self b o n hx]
      omega
    · rw [List.foldl_cons]
      exact ih (pack_le_uint b x n) o
        (fun y hy => by
          rw [pack_le_uint_length b x n hx]
          exact hin y (List.mem_cons_of_mem x hy))
        (List.pairwise_cons.mp hpair).2 hor

/-- C7: the builder's corrected frame count equals the number of video
chunks in the final sequence, and the header patcher writes that single
value as a 4-byte little-endian integer at every header offset present —
the main total-frame field, the video stream length field, and each
extended-index total-frame field — so that, provided the recorded offsets
lie inside the prefix and name disjoint 4-byte fields (as AVI header fields
do), reading any of them back yields exactly that count. -/
theorem C7_frame_count_patch :
    (∀ chunks : List AviChunk,
      buildVideoFrames chunks = (chunks.filter (fun c => c.is_video)).length) ∧
    (∀ (pfx : List Nat) (offsets : AviHeaderOffsets) (n : Nat), n < 4294967296 →
      (∀ o ∈ headerOffsetList offsets, o + 4 ≤ pfx.length) →
      (headerOffsetList offsets).Pairwise (fun a c => a + 4 ≤ c ∨ c + 4 ≤ a) →
      ∀ o ∈ headerOffsetList offsets,
        read_le_uint (update_header_counts pfx offsets n) o = n) := by
  refine ⟨fun chunks => build_go_video_frames chunks 4, ?_⟩
  intro pfx offsets n hn hrange hpair o ho
  rw [update_header_counts_eq_foldl]
  exact foldl_pack_read n hn (headerOffsetList offsets) pfx o hrange hpair ho

/-- C8: chunk extraction fails with a structural or correlation error in
each problem case — a nested LIST tag inside the movi payload; a declared
chunk size reading past the payload end; the index running out of records
before the payload chunks (an exhausted remaining-records tail); an index
record whose tag, size or offset (expected value: the chunk's payload
position plus 4) mismatches the payload chunk; index records left over
after the payload is exhausted — and on a well-formed input extraction
succeeds, returning exactly one typed chunk record per index record (and
hence per payload chunk, as they are matched one to one), as the concrete
well-formed sample shows. -/
theorem C8_extraction_validation :
    (∀ (payload : List Nat) (clip pos : Nat) (remaining : List IdxEntry),
       pos + 8 ≤ payload.length →
       subBytes payload pos (pos + 4) = LIST_TAG →
       parse_movi_go payload clip pos remaining =
         .error "Nested LIST chunk inside movi is not supported by this tool.") ∧
    (∀ (payload : List Nat) (clip pos : Nat) (remaining : List IdxEntry),
       pos + 8 ≤ payload.length →
       subBytes payload pos (pos + 4) ≠ LIST_TAG →
       payload.length < pos + 8 + read_le_uint payload (pos + 4) →
       parse_movi_go payload clip pos remaining = .error "Chunk exceeds movi payload size") ∧
    (∀ (payload : List Nat) (clip pos : Nat),
       pos + 8 ≤ payload.length →
       subBytes payload pos (pos + 4) ≠ LIST_TAG →
       ¬ payload.length < pos + 8 + read_le_uint payload (pos + 4) →
       parse_movi_go payload clip pos [] = .error "idx1 has fewer entries than movi chunks") ∧
    (∀ (payload : List Nat) (clip pos : Nat) (e : IdxEntry) (rest : List IdxEntry),
       pos + 8 ≤ payload.length →
       subBytes payload pos (pos + 4) ≠ LIST_TAG →
       ¬ payload.length < pos + 8 + read_le_uint payload (pos + 4) →
       (e.chunk_id ≠ subBytes payload pos (pos + 4) ∨
        e.size ≠ read_le_uint payload (pos + 4) ∨ e.offset ≠ pos + 4) →
       ∃ msg, parse_movi_go payload clip pos (e :: rest) = .error msg ∧
         (msg = "movi chunk order does not match idx1" ∨
          msg = "Chunk size mismatch between movi and idx1" ∨
          msg = "Chunk offset mismatch between movi and idx1")) ∧
    (∀ (payload : List Nat) (clip pos : Nat) (remaining : List IdxEntry),
       ¬ pos + 8 ≤ payload.length → remaining ≠ [] →
       parse_movi_go payload clip pos remaining =
         .error "idx1 contains extra entries after parsing movi") ∧
    (∀ (payload : List Nat) (entries : List IdxEntry) (clip : Nat) (out : List AviChunk),
       parse_movi_chunks payload entries clip = .ok out → out.length = entries.length) ∧
    parse_movi_chunks samplePayload sampleEntries 0 = .ok [sampleParsedChunk] := by
  refine ⟨?_, ?_, ?_, ?_, ?_, ?_, ?_⟩
  · intro payload clip pos remaining h8 hlist
    cases remaining <;> rw [parse_movi_go, if_pos h8, if_pos hlist]
  · intro payload clip pos remaining h8 hlist hover
    cases remaining <;> rw [parse_movi_go, if_pos h8, if_neg hlist, if_pos hover]
  · intro payload clip pos h8 hlist hover
    rw [parse_movi_go, if_pos h8, if_neg hlist, if_neg hover]
  · intro payload clip pos e rest h8 hlist hover hbad
    by_cases hid : e.chunk_id ≠ subBytes payload pos (pos + 4)
    · refine ⟨_, ?_, Or.inl rfl⟩
      rw [parse_movi_go, if_pos h8, if_neg hlist, if_neg hover, if_pos hid]
    · by_cases hsz : e.size ≠ read_le_uint payload (pos + 4)
      · refine ⟨_, ?_, Or.inr (Or.inl rfl)⟩
        rw [parse_movi_go, if_pos h8, if_neg hlist, if_neg hover, if_neg hid, if_pos hsz]
      · have hoff : e.offset ≠ pos + 4 := by tauto
        refine ⟨_, ?_, Or.inr (Or.inr rfl)⟩
        rw [parse_movi_go, if_pos h8, if_neg hlist, if_neg hover, if_neg hid, if_neg hsz,
          if_pos hoff]
  · intro payload clip pos remaining h8 hne
    cases remaining with
    | nil => exact absurd rfl hne
    | cons e rest => rw [parse_movi_go, if_neg h8, if_pos (List.cons_ne_nil e rest)]
  · intro payload entries clip out hp
    exact (parse_movi_go_props payload clip entries 0 out hp).2.1
  · rfl

end Mosh
